import Mathlib

/-!
Shallow embedding of `src/clustering/table_raft/leader.cc` (RethinkDB,
table_raft leader): the contract calculator `calculate_contract` and the
split-point computation at the head of `leader_t::pump_contracts`.

Modelling choices, all taken from the source:
* `server_id_t`, `branch_id_t`, `version_t`, `state_timestamp_t` are `Nat`.
* `std::set` is `Finset Nat`; iteration over a `std::set` visits elements in
  ascending order, embedded as `Finset.sort (· ≤ ·)`.
* The three ack maps (`ack_states`, `ack_versions`, `ack_branches`) are
  functions `Nat → Option _`; `map.count(k) == 1 && map.at(k) == v` becomes
  `f k = some v`, and a bare `map.at(k)` lookup becomes an `Option` bind that
  propagates `none` (`std::map::at` throws when the key is absent, so the
  whole computation is `Option`-valued: `none` models the thrown exception).
* `version_project_to_branch(branch_history, v, old_c.branch, region)` has all
  arguments except `v` fixed for one call, so it is embedded as a function
  parameter `proj : Nat → Nat`.
* The `branch_maker` callback is a function parameter; the result additionally
  records the at-most-one call made to it (arguments `(server, version)`), so
  that "the allocator is / is not called" is observable.
-/

namespace TableRaft

/-- The ack states used by `calculate_contract` (`contract_ack_t::state_t`). -/
inductive state_t where
  | secondary_streaming
  | secondary_need_primary
  | primary_ready
  | primary_need_branch
  deriving DecidableEq, Repr

/-- `contract_t::primary_t`: the primary designation inside a contract. -/
structure primary_t where
  server : Nat
  warm_shutdown : Bool
  warm_shutdown_for : Nat
  hand_over : Option Nat
  deriving DecidableEq, Repr

/-- `contract_t`: the contract for one region. -/
structure contract_t where
  replicas : Finset Nat
  voters : Finset Nat
  temp_voters : Option (Finset Nat)
  primary : Option primary_t
  branch : Nat
  deriving DecidableEq

/-- `table_config_t::shard_t`: the user-specified shard configuration. -/
structure shard_t where
  replicas : Finset Nat
  primary_replica : Nat
  deriving DecidableEq

/-- Whether `s` is the server of `c.primary` (false when `c.primary` is absent). -/
def isPrimaryOf (c : contract_t) (s : Nat) : Bool :=
  match c.primary with
  | some p => p.server == s
  | none => false

/-- Rule 2 count (leader.cc lines 41-50): servers of `config.replicas` that have
an ack entry and are either `secondary_streaming` or the current primary. -/
def numStreaming (old_c : contract_t) (config : shard_t)
    (ackst : Nat → Option state_t) : Nat :=
  (config.replicas.filter (fun s =>
    (ackst s).isSome ∧
      (ackst s = some state_t.secondary_streaming ∨ isPrimaryOf old_c s = true))).card

/-- Modelled from the spec's wording of the rule 2 count ("how many of
`shard_config.replicas` are reporting streaming or are the current primary"):
unlike the source's count, the current primary is counted whether or not it
has an ack entry. Stated for comparison with `numStreaming`. -/
def specStreamingCount (old_c : contract_t) (config : shard_t)
    (ackst : Nat → Option state_t) : Nat :=
  (config.replicas.filter (fun s =>
    ackst s = some state_t.secondary_streaming ∨ isPrimaryOf old_c s = true)).card

/-- Rule 2 (leader.cc lines 40-59): `temp_voters` after the initiation check. -/
def tempAfterInit (old_c : contract_t) (config : shard_t)
    (ackst : Nat → Option state_t) : Option (Finset Nat) :=
  if old_c.temp_voters = none ∧ old_c.voters ≠ config.replicas ∧
      numStreaming old_c config ackst > config.replicas.card / 2 then
    some config.replicas
  else old_c.temp_voters

/-- Rule 3 (leader.cc lines 63-78): `voters` after the commit check. -/
def votersAfterCommit (old_c : contract_t) (ackst : Nat → Option state_t) :
    Finset Nat :=
  match old_c.temp_voters, old_c.primary with
  | some tv, some p =>
      if ackst p.server = some state_t.primary_ready then tv else old_c.voters
  | _, _ => old_c.voters

/-- Rule 3 (leader.cc lines 63-78): `temp_voters` after the commit check. -/
def tempAfterCommit (old_c : contract_t) (config : shard_t)
    (ackst : Nat → Option state_t) : Option (Finset Nat) :=
  match old_c.temp_voters, old_c.primary with
  | some tv, some p =>
      if ackst p.server = some state_t.primary_ready then none else some tv
  | _, _ => tempAfterInit old_c config ackst

/-- Rule 4 removal condition (leader.cc lines 85-88): absent from
`config.replicas`, from `old_c.voters`, and from `old_c.temp_voters` if set. -/
def removableCfg (old_c : contract_t) (config : shard_t) (s : Nat) : Bool :=
  !(decide (s ∈ config.replicas)) && !(decide (s ∈ old_c.voters)) &&
    (match old_c.temp_voters with
     | none => true
     | some tv => !(decide (s ∈ tv)))

/-- Rule 4 (leader.cc lines 83-96): the `replicas` set after growth (rule 1,
lines 32-36) and removal of stale non-primary servers. -/
def replicasAfterRemoval (old_c : contract_t) (config : shard_t) : Finset Nat :=
  (old_c.replicas ∪ config.replicas) \
    (old_c.replicas.filter (fun s =>
      removableCfg old_c config s = true ∧ isPrimaryOf old_c s = false))

/-- Rule 4 (leader.cc lines 89-91): `should_kill_primary` as set by the removal
loop (true only when the primary server is visited by the loop, i.e. is a
member of `old_c.replicas`, and satisfies the removal condition). -/
def shouldKillCfg (old_c : contract_t) (config : shard_t) : Bool :=
  match old_c.primary with
  | some p => decide (p.server ∈ old_c.replicas) && removableCfg old_c config p.server
  | none => false

/-- Ascending enumeration of a `Finset Nat` (iteration order of a `std::set`
of server ids). Built from `List.range` so that it reduces structurally. -/
def ascList (s : Finset Nat) : List Nat :=
  (List.range (s.sup id + 1)).filter (fun x => decide (x ∈ s))

/-- Count of servers in `voters` whose ack is exactly `some st` (the
set-iteration counting loop of rule 6, leader.cc lines 176-182). -/
def countAcks (ackst : Nat → Option state_t) (st : state_t)
    (voters : Finset Nat) : Nat :=
  (voters.filter (fun s => ackst s = some st)).card

/-- Rule 5 collection loop (leader.cc lines 112-120): for each voter (in set
order) whose ack is `secondary_need_primary`, look up its version (`map::at`,
`none` = throw) and record `(projected timestamp, server)`. -/
def replicaStates (ackst : Nat → Option state_t) (ackv : Nat → Option Nat)
    (proj : Nat → Nat) : List Nat → Option (List (Nat × Nat))
  | [] => some []
  | s :: rest =>
    if ackst s = some state_t.secondary_need_primary then
      match ackv s with
      | none => none
      | some v =>
        match replicaStates ackst ackv proj rest with
        | none => none
        | some l => some ((proj v, s) :: l)
    else replicaStates ackst ackv proj rest

/-- The comparison `std::pair::operator<` sorts by: lexicographic on
`(timestamp, server id)`. -/
def pairLeP (a b : Nat × Nat) : Prop :=
  a.1 < b.1 ∨ (a.1 = b.1 ∧ a.2 ≤ b.2)

instance : DecidableRel pairLeP := fun a b => by
  unfold pairLeP; exact inferInstance

instance : IsTotal (Nat × Nat) pairLeP := by
  constructor
  intro a b
  rcases Nat.lt_trichotomy a.1 b.1 with h | h | h
  · exact Or.inl (Or.inl h)
  · rcases Nat.le_total a.2 b.2 with h2 | h2
    · exact Or.inl (Or.inr ⟨h, h2⟩)
    · exact Or.inr (Or.inr ⟨h.symm, h2⟩)
  · exact Or.inr (Or.inl h)

instance : IsTrans (Nat × Nat) pairLeP := by
  constructor
  intro a b c hab hbc
  rcases hab with h | ⟨h, h2⟩ <;> rcases hbc with h3 | ⟨h3, h4⟩
  · exact Or.inl (h.trans h3)
  · exact Or.inl (h3 ▸ h)
  · exact Or.inl (h ▸ h3)
  · exact Or.inr ⟨h.trans h3, h2.trans h4⟩

/-- Rule 5 selection loop (leader.cc lines 126-132): iterate over the sorted
candidate suffix, overwriting `new_primary` with each candidate and breaking
early at `config.primary_replica`. -/
def selectLoop (pr : Nat) : List (Nat × Nat) → Option Nat → Option Nat
  | [], acc => acc
  | x :: rest, _ => if x.2 = pr then some pr else selectLoop pr rest (some x.2)

/-- The slice of the sorted candidate vector the rule 5 selection loop visits
(leader.cc line 127): indices from `nvoters / 2` to the end. -/
def eligibleCandidates (states : List (Nat × Nat)) (nvoters : Nat) :
    List (Nat × Nat) :=
  (states.insertionSort pairLeP).drop (nvoters / 2)

/-- Rule 5 (leader.cc lines 102-151): primary election when `old_c.primary` is
absent. Returns `(primary, branch, branch_maker call)` or `none` for a thrown
`map::at` exception. -/
def electStep (config : shard_t) (ackst : Nat → Option state_t)
    (ackv : Nat → Option Nat) (proj : Nat → Nat)
    (branch_maker : Nat → Nat → Nat) (voters2 : Finset Nat) (oldBranch : Nat) :
    Option (Option primary_t × Nat × Option (Nat × Nat)) :=
  match replicaStates ackst ackv proj (ascList voters2) with
  | none => none
  | some states =>
    match selectLoop config.primary_replica (eligibleCandidates states voters2.card) none with
    | none => some (none, oldBranch, none)
    | some np =>
      match ackv np with
      | none => none
      | some v =>
        some (some ⟨np, false, 0, none⟩, branch_maker np v, some (np, v))

/-- Rule 6 (leader.cc lines 167-213): primary replacement / removal when
`old_c.primary` is present. -/
def demoteStep (config : shard_t) (ackst : Nat → Option state_t)
    (voters2 : Finset Nat) (p : primary_t) (killCfg : Bool) : Option primary_t :=
  if killCfg ||
      decide (countAcks ackst state_t.secondary_need_primary voters2 > voters2.card / 2) then
    none
  else if p.server ≠ config.primary_replica ∧
      ackst config.primary_replica = some state_t.secondary_streaming then
    if p.hand_over = some config.primary_replica ∧
        ackst p.server = some state_t.primary_ready then none
    else some { p with hand_over := some config.primary_replica }
  else some { p with hand_over := none }

/-- Rule 7 (leader.cc lines 216-222). The source reads
`ack_branches.at(old_c.primary->server)` (a throwing lookup) and assigns the
result to `old_c.branch` — but `old_c` is the `const` input parameter, so the
returned contract's `branch` is left unchanged by this statement. Only the
exception behaviour of the lookup is observable. -/
def branchRegCheck (ackst : Nat → Option state_t) (ackb : Nat → Option Nat)
    (oldp newp : Option primary_t) : Option Unit :=
  match oldp, newp with
  | some p, some q =>
    if p.server = q.server ∧ ackst p.server = some state_t.primary_need_branch then
      match ackb p.server with
      | none => none
      | some _ => some ()
    else some ()
  | _, _ => some ()

/-- `calculate_contract` (leader.cc lines 10-225). Returns `none` when the
source would throw (`std::map::at` on an absent key); otherwise
`some (new_contract, branch_maker call)` where the second component records
the at-most-one invocation of `branch_maker` with its arguments. -/
def calculate_contract (old_c : contract_t) (config : shard_t)
    (ackst : Nat → Option state_t) (ackv : Nat → Option Nat)
    (ackb : Nat → Option Nat) (proj : Nat → Nat)
    (branch_maker : Nat → Nat → Nat) :
    Option (contract_t × Option (Nat × Nat)) :=
  match old_c.primary with
  | none =>
    match electStep config ackst ackv proj branch_maker
        (votersAfterCommit old_c ackst) old_c.branch with
    | none => none
    | some (prim, br, call) =>
      some ({ replicas := replicasAfterRemoval old_c config,
              voters := votersAfterCommit old_c ackst,
              temp_voters := tempAfterCommit old_c config ackst,
              primary := prim, branch := br }, call)
  | some p =>
    match branchRegCheck ackst ackb (some p)
        (demoteStep config ackst (votersAfterCommit old_c ackst) p
          (shouldKillCfg old_c config)) with
    | none => none
    | some _ =>
      some ({ replicas := replicasAfterRemoval old_c config,
              voters := votersAfterCommit old_c ackst,
              temp_voters := tempAfterCommit old_c config ackst,
              primary := demoteStep config ackst (votersAfterCommit old_c ackst) p
                (shouldKillCfg old_c config),
              branch := old_c.branch }, none)

/-- One branch's birth certificate, as read by `pump_contracts`: the `origin`
region map, modelled as the list of `(left boundary key, version)` pairs. -/
structure branch_birth_certificate where
  origin : List (Nat × Nat)
  deriving DecidableEq

/-- The split-point computation at the head of `leader_t::pump_contracts`
(leader.cc lines 236-248), exactly as the source performs it: only the left
boundaries of branch-history `origin` regions are inserted into
`split_points`; the loop over `old_state.contracts` has an empty body and no
loop over the shard configuration exists, so `oldContractBounds` and
`configBounds` are accepted but never consulted. -/
def pump_split_points (branch_history : List (Nat × branch_birth_certificate))
    (oldContractBounds : Finset Nat) (configBounds : Finset Nat) : Finset Nat :=
  branch_history.foldl
    (fun acc pair => pair.2.origin.foldl (fun acc2 q => insert q.1 acc2) acc) ∅

/-- Modelled from the spec (section 4.1, "Split-point sources"): the split
points are the union of shard-configuration boundary keys, old contract region
boundary keys, and every region boundary referenced as an origin in branch
history. Stated here for comparison with what the source computes. -/
def pump_split_points_spec (branch_history : List (Nat × branch_birth_certificate))
    (oldContractBounds : Finset Nat) (configBounds : Finset Nat) : Finset Nat :=
  configBounds ∪ oldContractBounds ∪
    branch_history.foldl
      (fun acc pair => pair.2.origin.foldl (fun acc2 q => insert q.1 acc2) acc) ∅

/-! ### Helper lemmas -/

theorem pairLeP_refl (a : Nat × Nat) : pairLeP a a :=
  Or.inr ⟨rfl, Nat.le_refl _⟩

theorem mem_ascList {s : Finset Nat} {x : Nat} : x ∈ ascList s ↔ x ∈ s := by
  unfold ascList
  simp only [List.mem_filter, List.mem_range, decide_eq_true_eq]
  constructor
  · exact fun h => h.2
  · intro h
    exact ⟨Nat.lt_succ_of_le (Finset.le_sup (f := id) h), h⟩

/-- Projections of a successful `calculate_contract` call: the `voters`,
`temp_voters` and `replicas` fields of the result are the rule 1-4 values. -/
theorem calc_fields {old_c : contract_t} {config : shard_t}
    {ackst : Nat → Option state_t} {ackv ackb : Nat → Option Nat}
    {proj : Nat → Nat} {bm : Nat → Nat → Nat}
    {nc : contract_t} {call : Option (Nat × Nat)}
    (h : calculate_contract old_c config ackst ackv ackb proj bm = some (nc, call)) :
    nc.voters = votersAfterCommit old_c ackst ∧
      nc.temp_voters = tempAfterCommit old_c config ackst ∧
      nc.replicas = replicasAfterRemoval old_c config := by
  unfold calculate_contract at h
  cases hp : old_c.primary with
  | none =>
    rw [hp] at h
    cases hel : electStep config ackst ackv proj bm (votersAfterCommit old_c ackst)
        old_c.branch with
    | none => rw [hel] at h; exact absurd h (by simp)
    | some trip =>
      obtain ⟨prim, br, cl⟩ := trip
      rw [hel] at h
      simp only [Option.some.injEq, Prod.mk.injEq] at h
      rw [← h.1]
      exact ⟨rfl, rfl, rfl⟩
  | some p =>
    simp only [hp] at h
    cases hbr : branchRegCheck ackst ackb (some p)
        (demoteStep config ackst (votersAfterCommit old_c ackst) p
          (shouldKillCfg old_c config)) with
    | none => rw [hbr] at h; exact absurd h (by simp)
    | some u =>
      rw [hbr] at h
      simp only [Option.some.injEq, Prod.mk.injEq] at h
      rw [← h.1]
      exact ⟨rfl, rfl, rfl⟩

/-- The primary field of a successful `calculate_contract` call, when the old
contract already has a primary, is the rule 6 result. -/
theorem calc_primary_of_some {old_c : contract_t} {config : shard_t}
    {ackst : Nat → Option state_t} {ackv ackb : Nat → Option Nat}
    {proj : Nat → Nat} {bm : Nat → Nat → Nat}
    {nc : contract_t} {call : Option (Nat × Nat)} {p : primary_t}
    (hp : old_c.primary = some p)
    (h : calculate_contract old_c config ackst ackv ackb proj bm = some (nc, call)) :
    nc.primary = demoteStep config ackst (votersAfterCommit old_c ackst) p
      (shouldKillCfg old_c config) ∧ nc.branch = old_c.branch := by
  unfold calculate_contract at h
  simp only [hp] at h
  cases hbr : branchRegCheck ackst ackb (some p)
      (demoteStep config ackst (votersAfterCommit old_c ackst) p
        (shouldKillCfg old_c config)) with
  | none => rw [hbr] at h; exact absurd h (by simp)
  | some u =>
    rw [hbr] at h
    simp only [Option.some.injEq, Prod.mk.injEq] at h
    rw [← h.1]
    exact ⟨rfl, rfl⟩

theorem votersAfterCommit_of_primary_none {old_c : contract_t}
    {ackst : Nat → Option state_t} (hp : old_c.primary = none) :
    votersAfterCommit old_c ackst = old_c.voters := by
  unfold votersAfterCommit
  cases ht : old_c.temp_voters <;> rw [hp]

theorem tempAfterCommit_of_temp_none {old_c : contract_t} {config : shard_t}
    {ackst : Nat → Option state_t} (ht : old_c.temp_voters = none) :
    tempAfterCommit old_c config ackst = tempAfterInit old_c config ackst := by
  unfold tempAfterCommit
  cases hp : old_c.primary <;> rw [ht]

theorem votersAfterCommit_of_temp_none {old_c : contract_t}
    {ackst : Nat → Option state_t} (ht : old_c.temp_voters = none) :
    votersAfterCommit old_c ackst = old_c.voters := by
  unfold votersAfterCommit
  cases hp : old_c.primary <;> rw [ht]

theorem replicaStates_isSome {ackst : Nat → Option state_t}
    {ackv : Nat → Option Nat} (proj : Nat → Nat)
    (h1 : ∀ s, (ackst s).isSome → (ackv s).isSome) :
    ∀ l : List Nat, (replicaStates ackst ackv proj l).isSome := by
  intro l
  induction l with
  | nil => simp [replicaStates]
  | cons s rest ih =>
    unfold replicaStates
    by_cases hs : ackst s = some state_t.secondary_need_primary
    · rw [if_pos hs]
      have hv : (ackv s).isSome := h1 s (by rw [hs]; rfl)
      cases hvv : ackv s with
      | none => rw [hvv] at hv; exact absurd hv (by simp)
      | some v =>
        cases hr : replicaStates ackst ackv proj rest with
        | none => rw [hr] at ih; exact absurd ih (by simp)
        | some r => simp
    · rw [if_neg hs]
      exact ih

theorem replicaStates_mem {ackst : Nat → Option state_t}
    {ackv : Nat → Option Nat} {proj : Nat → Nat} :
    ∀ {l : List Nat} {r : List (Nat × Nat)},
      replicaStates ackst ackv proj l = some r →
      ∀ pr ∈ r, pr.2 ∈ l ∧ ackst pr.2 = some state_t.secondary_need_primary ∧
        ∃ v, ackv pr.2 = some v ∧ pr.1 = proj v := by
  intro l
  induction l with
  | nil =>
    intro r h pr hpr
    unfold replicaStates at h
    simp only [Option.some.injEq] at h
    rw [← h] at hpr
    exact absurd hpr (by simp)
  | cons s rest ih =>
    intro r h pr hpr
    unfold replicaStates at h
    by_cases hs : ackst s = some state_t.secondary_need_primary
    · rw [if_pos hs] at h
      cases hvv : ackv s with
      | none => rw [hvv] at h; exact absurd h (by simp)
      | some v =>
        rw [hvv] at h
        cases hr : replicaStates ackst ackv proj rest with
        | none => rw [hr] at h; exact absurd h (by simp)
        | some r0 =>
          rw [hr] at h
          simp only [Option.some.injEq] at h
          rw [← h] at hpr
          rcases List.mem_cons.mp hpr with heq | hmem
          · rw [heq]
            exact ⟨List.mem_cons_self _ _, hs, v, hvv, rfl⟩
          · obtain ⟨hl, hst, hv⟩ := ih hr pr hmem
            exact ⟨List.mem_cons_of_mem _ hl, hst, hv⟩
    · rw [if_neg hs] at h
      obtain ⟨hl, hst, hv⟩ := ih h pr hpr
      exact ⟨List.mem_cons_of_mem _ hl, hst, hv⟩

theorem replicaStates_length {ackst : Nat → Option state_t}
    {ackv : Nat → Option Nat} {proj : Nat → Nat} :
    ∀ {l : List Nat} {r : List (Nat × Nat)},
      replicaStates ackst ackv proj l = some r →
      r.length = l.countP (fun s => decide (ackst s = some state_t.secondary_need_primary)) := by
  intro l
  induction l with
  | nil =>
    intro r h
    unfold replicaStates at h
    simp only [Option.some.injEq] at h
    rw [← h]
    rfl
  | cons s rest ih =>
    intro r h
    unfold replicaStates at h
    by_cases hs : ackst s = some state_t.secondary_need_primary
    · rw [if_pos hs] at h
      cases hvv : ackv s with
      | none => rw [hvv] at h; exact absurd h (by simp)
      | some v =>
        rw [hvv] at h
        cases hr : replicaStates ackst ackv proj rest with
        | none => rw [hr] at h; exact absurd h (by simp)
        | some r0 =>
          rw [hr] at h
          simp only [Option.some.injEq] at h
          rw [← h]
          simp [List.countP_cons, hs, ih hr]
    · rw [if_neg hs] at h
      rw [List.countP_cons, ih h]
      simp [hs]

theorem selectLoop_some_mem {pr : Nat} :
    ∀ {l : List (Nat × Nat)} {acc : Option Nat} {x : Nat},
      selectLoop pr l acc = some x → x ∈ l.map Prod.snd ∨ acc = some x := by
  intro l
  induction l with
  | nil => intro acc x h; exact Or.inr h
  | cons a rest ih =>
    intro acc x h
    unfold selectLoop at h
    by_cases ha : a.2 = pr
    · rw [if_pos ha] at h
      simp only [Option.some.injEq] at h
      exact Or.inl (by simp [← h, ← ha])
    · rw [if_neg ha] at h
      rcases ih h with hm | hacc
      · exact Or.inl (List.mem_cons_of_mem _ hm)
      · simp only [Option.some.injEq] at hacc
        exact Or.inl (by simp [← hacc])

theorem selectLoop_acc_ne_none {pr : Nat} :
    ∀ {l : List (Nat × Nat)} {a : Nat}, selectLoop pr l (some a) ≠ none := by
  intro l
  induction l with
  | nil => intro a h; exact absurd h (by simp [selectLoop])
  | cons b rest ih =>
    intro a h
    unfold selectLoop at h
    by_cases hb : b.2 = pr
    · rw [if_pos hb] at h; exact absurd h (by simp)
    · rw [if_neg hb] at h; exact ih h

theorem selectLoop_none_of_nil {pr : Nat} {l : List (Nat × Nat)}
    (h : selectLoop pr l none = none) : l = [] := by
  cases l with
  | nil => rfl
  | cons a rest =>
    unfold selectLoop at h
    by_cases ha : a.2 = pr
    · rw [if_pos ha] at h; exact absurd h (by simp)
    · rw [if_neg ha] at h; exact absurd h selectLoop_acc_ne_none

theorem selectLoop_of_mem {pr : Nat} :
    ∀ {l : List (Nat × Nat)} (acc : Option Nat), pr ∈ l.map Prod.snd →
      selectLoop pr l acc = some pr := by
  intro l
  induction l with
  | nil => intro acc h; exact absurd h (by simp)
  | cons a rest ih =>
    intro acc h
    unfold selectLoop
    by_cases ha : a.2 = pr
    · rw [if_pos ha]
    · rw [if_neg ha]
      apply ih
      rcases List.mem_map.mp h with ⟨b, hb, hsnd⟩
      rcases List.mem_cons.mp hb with heq | hmem
      · exact absurd (heq ▸ hsnd) ha
      · exact List.mem_map.mpr ⟨b, hmem, hsnd⟩

theorem selectLoop_of_not_mem {pr : Nat} :
    ∀ {l : List (Nat × Nat)} (acc : Option Nat), pr ∉ l.map Prod.snd →
      selectLoop pr l acc =
        (match l.getLast? with | some b => some b.2 | none => acc) := by
  intro l
  induction l with
  | nil => intro acc hmem; rfl
  | cons a rest ih =>
    intro acc hmem
    have ha : a.2 ≠ pr := by
      intro hcon
      exact hmem (by simp [← hcon])
    have hmem2 : pr ∉ rest.map Prod.snd := by
      intro hcon
      exact hmem (by simp only [List.map_cons, List.mem_cons]; exact Or.inr hcon)
    unfold selectLoop
    rw [if_neg ha, ih (some a.2) hmem2]
    cases hrest : rest with
    | nil => subst hrest; rfl
    | cons b rest2 =>
      subst hrest
      rw [List.getLast?_cons_cons, List.getLast?_eq_getLast (b :: rest2) (by simp)]

theorem sorted_pairLeP_getLast? :
    ∀ {l : List (Nat × Nat)} {b : Nat × Nat}, List.Sorted pairLeP l →
      l.getLast? = some b → ∀ x ∈ l, pairLeP x b := by
  intro l
  induction l with
  | nil => intro b hs hb; exact absurd hb (by simp)
  | cons a rest ih =>
    intro b hs hb x hx
    cases hrest : rest with
    | nil =>
      subst hrest
      simp only [List.getLast?_singleton, Option.some.injEq] at hb
      rcases List.mem_singleton.mp hx with rfl
      rw [← hb]
      exact pairLeP_refl _
    | cons c rest2 =>
      subst hrest
      rw [List.getLast?_cons_cons] at hb
      have hbmem : b ∈ c :: rest2 := List.mem_of_getLast?_eq_some hb
      rcases List.mem_cons.mp hx with rfl | hmem
      · exact (List.sorted_cons.mp hs).1 _ hbmem
      · exact ih (List.sorted_cons.mp hs).2 hb x hmem

theorem replicaStates_version_isSome {ackst : Nat → Option state_t}
    {ackv : Nat → Option Nat} {proj : Nat → Nat} :
    ∀ {l : List Nat} {r : List (Nat × Nat)},
      replicaStates ackst ackv proj l = some r →
      ∀ s ∈ l, ackst s = some state_t.secondary_need_primary → (ackv s).isSome := by
  intro l
  induction l with
  | nil => intro r h s hs; exact absurd hs (by simp)
  | cons a rest ih =>
    intro r h s hs hst
    unfold replicaStates at h
    by_cases ha : ackst a = some state_t.secondary_need_primary
    · rw [if_pos ha] at h
      cases hvv : ackv a with
      | none => rw [hvv] at h; exact absurd h (by simp)
      | some v =>
        rw [hvv] at h
        cases hr : replicaStates ackst ackv proj rest with
        | none => rw [hr] at h; exact absurd h (by simp)
        | some r0 =>
          rcases List.mem_cons.mp hs with rfl | hmem
          · rw [hvv]; rfl
          · exact ih hr s hmem hst
    · rw [if_neg ha] at h
      rcases List.mem_cons.mp hs with rfl | hmem
      · exact absurd hst ha
      · exact ih h s hmem hst

theorem mem_states_of_eligible {states : List (Nat × Nat)} {n : Nat}
    {pr : Nat × Nat} (h : pr ∈ eligibleCandidates states n) : pr ∈ states := by
  unfold eligibleCandidates at h
  exact (List.mem_insertionSort pairLeP).mp (List.mem_of_mem_drop h)

theorem branchRegCheck_isSome {ackst : Nat → Option state_t}
    {ackb : Nat → Option Nat} (oldp newp : Option primary_t)
    (h2 : ∀ s, ackst s = some state_t.primary_need_branch → (ackb s).isSome) :
    (branchRegCheck ackst ackb oldp newp).isSome := by
  unfold branchRegCheck
  split
  · rename_i p q
    by_cases hg : p.server = q.server ∧ ackst p.server = some state_t.primary_need_branch
    · rw [if_pos hg]
      have hv := h2 p.server hg.2
      cases hb : ackb p.server with
      | none => rw [hb] at hv; exact absurd hv (by simp)
      | some v => simp
    · rw [if_neg hg]; simp
  · simp

theorem electStep_isSome {config : shard_t} {ackst : Nat → Option state_t}
    {ackv : Nat → Option Nat} {bm : Nat → Nat → Nat}
    {voters2 : Finset Nat} {b : Nat} (proj : Nat → Nat)
    (h1 : ∀ s, (ackst s).isSome → (ackv s).isSome) :
    (electStep config ackst ackv proj bm voters2 b).isSome := by
  unfold electStep
  split
  · rename_i hr
    have hsome := replicaStates_isSome proj h1 (ascList voters2)
    rw [hr] at hsome
    exact absurd hsome (by simp)
  · rename_i states hr
    split
    · simp
    · rename_i np hsel
      rcases selectLoop_some_mem hsel with hm | habs
      · rcases List.mem_map.mp hm with ⟨pr, hmem, hsnd⟩
        obtain ⟨-, -, v, hv, -⟩ := replicaStates_mem hr pr (mem_states_of_eligible hmem)
        rw [hsnd] at hv
        rw [hv]
        simp
      · exact absurd habs (by simp)

theorem countP_ascList {s : Finset Nat} {p : Nat → Prop} [DecidablePred p] :
    (ascList s).countP (fun x => decide (p x)) = (s.filter p).card := by
  rw [List.countP_eq_length_filter]
  have hnodup : ((ascList s).filter (fun x => decide (p x))).Nodup :=
    ((List.nodup_range _).filter _).filter _
  have hmem : ∀ x, x ∈ (ascList s).filter (fun x => decide (p x)) ↔ x ∈ s.filter p := by
    intro x
    rw [List.mem_filter, mem_ascList, Finset.mem_filter, decide_eq_true_eq]
  rw [← List.toFinset_card_of_nodup hnodup]
  congr 1
  ext x
  rw [List.mem_toFinset, hmem]

/-! ### Claims -/

/-- C1 (counterexample): `calculate_contract` is claimed never to fail, but an
ack-state entry (`secondary_need_primary` for voter 1) with no corresponding
ack-version entry makes the rule 5 `map::at` lookup throw: the embedded
computation returns `none`. -/
theorem calculate_contract_can_fail :
    calculate_contract ⟨{1}, {1}, none, none, 0⟩ ⟨{1}, 1⟩
      (fun s => if s = 1 then some state_t.secondary_need_primary else none)
      (fun _ => none) (fun _ => none) (fun v => v) (fun _ _ => 0) = none := by
  decide

/-- C1 (amended): `calculate_contract` returns a contract without failing
provided every server with an ack-state entry also has an ack-version entry,
and every server whose ack-state is `primary_need_branch` also has an
ack-branch entry; all other out-of-shape acks (for servers outside the region
or outside the voter set) are ignored. -/
theorem calculate_contract_total_of_ack_shape
    (old_c : contract_t) (config : shard_t) (ackst : Nat → Option state_t)
    (ackv ackb : Nat → Option Nat) (proj : Nat → Nat) (bm : Nat → Nat → Nat)
    (h1 : ∀ s, (ackst s).isSome → (ackv s).isSome)
    (h2 : ∀ s, ackst s = some state_t.primary_need_branch → (ackb s).isSome) :
    (calculate_contract old_c config ackst ackv ackb proj bm).isSome := by
  unfold calculate_contract
  split
  · split
    · rename_i hel
      have he : (electStep config ackst ackv proj bm (votersAfterCommit old_c ackst)
          old_c.branch).isSome := electStep_isSome proj h1
      rw [hel] at he
      exact absurd he (by simp)
    · simp
  · rename_i p hp
    split
    · rename_i hbr
      have hb : (branchRegCheck ackst ackb (some p)
          (demoteStep config ackst (votersAfterCommit old_c ackst) p
            (shouldKillCfg old_c config))).isSome := branchRegCheck_isSome _ _ h2
      rw [hbr] at hb
      exact absurd hb (by simp)
    · simp

/-- Witness for C1 (amended) at a concrete input with empty ack maps. -/
theorem calculate_contract_total_of_ack_shape_witness :
    (calculate_contract ⟨{1}, {1}, none, none, 0⟩ ⟨{1, 2}, 2⟩
      (fun _ => none) (fun _ => none) (fun _ => none) (fun v => v)
      (fun _ _ => 0)).isSome :=
  calculate_contract_total_of_ack_shape ⟨{1}, {1}, none, none, 0⟩ ⟨{1, 2}, 2⟩
    (fun _ => none) (fun _ => none) (fun _ => none) (fun v => v) (fun _ _ => 0)
    (fun _ h => absurd h (by simp)) (fun _ h => absurd h (by simp))

/-- C2 (code bug): the old contract has primary 1, the returned contract keeps
primary 1, and server 1 acked `primary_need_branch` for the old contract with
proposed branch id 99 — yet the returned contract's `branch` stays at the old
value 5 (the source assigns the proposed id to the `const` input `old_c`
rather than to `new_c`, so the registration comment above the statement is not
implemented), and the branch allocator is not called (second component
`none`). -/
theorem branch_request_not_registered :
    calculate_contract ⟨{1}, {1}, none, some ⟨1, false, 0, none⟩, 5⟩ ⟨{1}, 1⟩
      (fun s => if s = 1 then some state_t.primary_need_branch else none)
      (fun _ => none) (fun s => if s = 1 then some 99 else none) (fun v => v)
      (fun _ _ => 0)
    = some (⟨{1}, {1}, none, some ⟨1, false, 0, none⟩, 5⟩, none) := by
  decide

/-- C3 (counterexample): the claim counts the current primary even when it has
sent no ack. Here `config.replicas = {1, 2}`, server 2 acked streaming, the
current primary 1 sent no ack: the claim's count is 2 > 1 and the old voters
`{1}` differ from `config.replicas`, so by the claim `temp_voters` should be
set — but the source requires an ack entry for the primary and counts only 1,
so `temp_voters` stays absent. -/
theorem temp_voters_spec_count_differs :
    specStreamingCount ⟨{1}, {1}, none, some ⟨1, false, 0, none⟩, 0⟩ ⟨{1, 2}, 1⟩
        (fun s => if s = 2 then some state_t.secondary_streaming else none) = 2 ∧
    ({1, 2} : Finset Nat).card / 2 < 2 ∧
    ({1} : Finset Nat) ≠ {1, 2} ∧
    calculate_contract ⟨{1}, {1}, none, some ⟨1, false, 0, none⟩, 0⟩ ⟨{1, 2}, 1⟩
        (fun s => if s = 2 then some state_t.secondary_streaming else none)
        (fun _ => none) (fun _ => none) (fun v => v) (fun _ _ => 0)
      = some (⟨{1, 2}, {1}, none, some ⟨1, false, 0, none⟩, 0⟩, none) := by
  decide

/-- C3 (amended): when no transition is in flight and the voters differ from
`config.replicas`, the result's `temp_voters` is `some config.replicas`
exactly when the number of servers of `config.replicas` that have sent an ack
for the old contract and are streaming or are the current primary exceeds
`|config.replicas| / 2`, and stays `none` otherwise. -/
theorem temp_voters_iff_acked_streaming_quorum
    (old_c : contract_t) (config : shard_t) (ackst : Nat → Option state_t)
    (ackv ackb : Nat → Option Nat) (proj : Nat → Nat) (bm : Nat → Nat → Nat)
    (nc : contract_t) (call : Option (Nat × Nat))
    (hT : old_c.temp_voters = none)
    (hV : old_c.voters ≠ config.replicas)
    (h : calculate_contract old_c config ackst ackv ackb proj bm = some (nc, call)) :
    nc.temp_voters =
      if numStreaming old_c config ackst > config.replicas.card / 2
      then some config.replicas else none := by
  rw [(calc_fields h).2.1, tempAfterCommit_of_temp_none hT]
  unfold tempAfterInit
  by_cases hc : numStreaming old_c config ackst > config.replicas.card / 2
  · rw [if_pos ⟨hT, hV, hc⟩, if_pos hc]
  · rw [if_neg (fun hcon => hc hcon.2.2), if_neg hc, hT]

/-- Witness for C3 (amended): both desired replicas acked streaming, so the
count is 2 > 1 and `temp_voters` is set. -/
theorem temp_voters_iff_acked_streaming_quorum_witness :
    (⟨{1, 2}, {1}, some {1, 2}, none, 0⟩ : contract_t).temp_voters =
      if numStreaming ⟨{1}, {1}, none, none, 0⟩ ⟨{1, 2}, 1⟩
            (fun _ => some state_t.secondary_streaming) >
          ({1, 2} : Finset Nat).card / 2
      then some ({1, 2} : Finset Nat) else none :=
  temp_voters_iff_acked_streaming_quorum ⟨{1}, {1}, none, none, 0⟩ ⟨{1, 2}, 1⟩
    (fun _ => some state_t.secondary_streaming) (fun _ => none) (fun _ => none)
    (fun v => v) (fun _ _ => 0) ⟨{1, 2}, {1}, some {1, 2}, none, 0⟩ none
    rfl (by decide) (by decide)

/-- C5 (code bug): with one branch whose origin has left boundary 3, an old
contract with region boundary 5 and a shard-configuration boundary 7, the
source's split-point computation yields only `{3}` (the loop over the old
contracts has an empty body and no loop over the configuration exists), while
the spec's union of the three boundary sources yields `{7, 5, 3}`. -/
theorem pump_split_points_miss_bounds :
    pump_split_points [(1, ⟨[(3, 0)]⟩)] {5} {7} = {3} ∧
    pump_split_points_spec [(1, ⟨[(3, 0)]⟩)] {5} {7} = {7, 5, 3} ∧
    pump_split_points [(1, ⟨[(3, 0)]⟩)] {5} {7} ≠
      pump_split_points_spec [(1, ⟨[(3, 0)]⟩)] {5} {7} := by
  decide

/-- C6: at most one of initiating a voter transition and committing one
happens per call: if no transition was in flight, the voters are unchanged
(and `temp_voters` is either still absent or freshly set to
`config.replicas`); and if the voters changed (a commit), a transition was
already in flight before the call and `temp_voters` is now cleared — so
`temp_voters` is never both set and cleared within one call. -/
theorem initiate_commit_exclusive
    (old_c : contract_t) (config : shard_t) (ackst : Nat → Option state_t)
    (ackv ackb : Nat → Option Nat) (proj : Nat → Nat) (bm : Nat → Nat → Nat)
    (nc : contract_t) (call : Option (Nat × Nat))
    (h : calculate_contract old_c config ackst ackv ackb proj bm = some (nc, call)) :
    (old_c.temp_voters = none →
      nc.voters = old_c.voters ∧
        (nc.temp_voters = none ∨ nc.temp_voters = some config.replicas)) ∧
    (nc.voters ≠ old_c.voters →
      old_c.temp_voters ≠ none ∧ nc.temp_voters = none) := by
  obtain ⟨hv, ht, -⟩ := calc_fields h
  constructor
  · intro hT
    refine ⟨by rw [hv, votersAfterCommit_of_temp_none hT], ?_⟩
    rw [ht, tempAfterCommit_of_temp_none hT]
    unfold tempAfterInit
    by_cases hc : old_c.temp_voters = none ∧ old_c.voters ≠ config.replicas ∧
        numStreaming old_c config ackst > config.replicas.card / 2
    · rw [if_pos hc]
      exact Or.inr rfl
    · rw [if_neg hc]
      exact Or.inl hT
  · intro hne
    cases hT : old_c.temp_voters with
    | none =>
      rw [hv, votersAfterCommit_of_temp_none hT] at hne
      exact absurd rfl hne
    | some tv =>
      refine ⟨by simp [hT], ?_⟩
      rw [hv] at hne
      rw [ht]
      unfold votersAfterCommit at hne
      unfold tempAfterCommit
      cases hp : old_c.primary with
      | none =>
        simp only [hT, hp] at hne
        exact absurd rfl hne
      | some p =>
        simp only [hT, hp] at hne ⊢
        by_cases hack : ackst p.server = some state_t.primary_ready
        · rw [if_pos hack]
        · rw [if_neg hack] at hne
          exact absurd rfl hne

/-- Witness for C6: a commit call (transition in flight, primary acked
`primary_ready`), so the voters change and `temp_voters` is cleared. -/
theorem initiate_commit_exclusive_witness :
    (({1, 2} : Finset Nat) = ({1} : Finset Nat) →
      ({1, 2} : Finset Nat) = {1} ∧
        ((none : Option (Finset Nat)) = none ∨
          (none : Option (Finset Nat)) = some {1, 2})) ∧
    (({1, 2} : Finset Nat) ≠ ({1} : Finset Nat) →
      (some ({1, 2} : Finset Nat) ≠ none ∧ (none : Option (Finset Nat)) = none)) := by
  have hmain := initiate_commit_exclusive
    ⟨{1, 2}, {1}, some {1, 2}, some ⟨1, false, 0, none⟩, 0⟩ ⟨{1, 2}, 1⟩
    (fun s => if s = 1 then some state_t.primary_ready else none)
    (fun _ => none) (fun _ => none) (fun v => v) (fun _ _ => 0)
    ⟨{1, 2}, {1, 2}, none, some ⟨1, false, 0, none⟩, 0⟩ none (by decide)
  constructor
  · intro hcon
    exact ⟨hcon ▸ rfl, Or.inl rfl⟩
  · intro hne
    exact ⟨hmain.2 hne |>.1, rfl⟩

/-- C7: the returned replica set is contained in the union of the old replicas
and `config.replicas`, and a server of the old replicas is dropped only when
it is absent from `config.replicas`, from the old voters, from the old
`temp_voters` (when present), and is not the current primary. -/
theorem replicas_monotone_growth
    (old_c : contract_t) (config : shard_t) (ackst : Nat → Option state_t)
    (ackv ackb : Nat → Option Nat) (proj : Nat → Nat) (bm : Nat → Nat → Nat)
    (nc : contract_t) (call : Option (Nat × Nat))
    (h : calculate_contract old_c config ackst ackv ackb proj bm = some (nc, call)) :
    nc.replicas ⊆ old_c.replicas ∪ config.replicas ∧
    ∀ s ∈ old_c.replicas, s ∉ nc.replicas →
      s ∉ config.replicas ∧ s ∉ old_c.voters ∧
      (∀ tv, old_c.temp_voters = some tv → s ∉ tv) ∧
      isPrimaryOf old_c s = false := by
  obtain ⟨-, -, hr⟩ := calc_fields h
  rw [hr]
  unfold replicasAfterRemoval
  constructor
  · exact Finset.sdiff_subset
  · intro s hs hns
    have hsu : s ∈ old_c.replicas ∪ config.replicas := Finset.mem_union_left _ hs
    have hmemf : s ∈ old_c.replicas.filter
        (fun s => removableCfg old_c config s = true ∧ isPrimaryOf old_c s = false) := by
      by_contra hc
      exact hns (Finset.mem_sdiff.mpr ⟨hsu, hc⟩)
    obtain ⟨-, hrem, hprim⟩ := Finset.mem_filter.mp hmemf
    unfold removableCfg at hrem
    simp only [Bool.and_eq_true, Bool.not_eq_true', decide_eq_false_iff_not] at hrem
    obtain ⟨⟨hcfg, hvot⟩, htemp⟩ := hrem
    refine ⟨hcfg, hvot, ?_, hprim⟩
    intro tv htv
    simp only [htv, Bool.not_eq_true', decide_eq_false_iff_not] at htemp
    exact htemp

/-- Witness for C7: servers 2 and 3 are dropped from the replicas after being
removed from the configuration, and the conclusion holds for them. -/
theorem replicas_monotone_growth_witness :
    ({1} : Finset Nat) ⊆ {1, 2, 3} ∪ {1} ∧
    ∀ s ∈ ({1, 2, 3} : Finset Nat), s ∉ ({1} : Finset Nat) →
      s ∉ ({1} : Finset Nat) ∧ s ∉ ({1} : Finset Nat) ∧
      (∀ tv, (none : Option (Finset Nat)) = some tv → s ∉ tv) ∧
      isPrimaryOf ⟨{1, 2, 3}, {1}, none, some ⟨1, false, 0, none⟩, 0⟩ s = false :=
  replicas_monotone_growth
    ⟨{1, 2, 3}, {1}, none, some ⟨1, false, 0, none⟩, 0⟩ ⟨{1}, 1⟩
    (fun _ => none) (fun _ => none) (fun _ => none) (fun v => v) (fun _ _ => 0)
    ⟨{1}, {1}, none, some ⟨1, false, 0, none⟩, 0⟩ none (by decide)

/-- C9: when the old contract has a primary and strictly more than half of the
current voters ack `secondary_need_primary` against the current contract, the
returned contract has no primary — even if the primary was never marked for
removal by the configuration. -/
theorem auto_failover_majority
    (old_c : contract_t) (config : shard_t) (ackst : Nat → Option state_t)
    (ackv ackb : Nat → Option Nat) (proj : Nat → Nat) (bm : Nat → Nat → Nat)
    (nc : contract_t) (call : Option (Nat × Nat)) (p : primary_t)
    (hp : old_c.primary = some p)
    (hcnt : countAcks ackst state_t.secondary_need_primary
        (votersAfterCommit old_c ackst) >
      (votersAfterCommit old_c ackst).card / 2)
    (h : calculate_contract old_c config ackst ackv ackb proj bm = some (nc, call)) :
    nc.primary = none := by
  rw [(calc_primary_of_some hp h).1]
  unfold demoteStep
  have hb : (shouldKillCfg old_c config ||
      decide (countAcks ackst state_t.secondary_need_primary
          (votersAfterCommit old_c ackst) >
        (votersAfterCommit old_c ackst).card / 2)) = true := by
    rw [Bool.or_eq_true]
    exact Or.inr (decide_eq_true hcnt)
  rw [if_pos hb]

/-- Witness for C9: voters 2 and 3 out of `{1, 2, 3}` ack
`secondary_need_primary`, so the live primary 1 is removed. -/
theorem auto_failover_majority_witness :
    (⟨{1, 2, 3}, {1, 2, 3}, none, none, 0⟩ : contract_t).primary = none :=
  auto_failover_majority
    ⟨{1, 2, 3}, {1, 2, 3}, none, some ⟨1, false, 0, none⟩, 0⟩ ⟨{1, 2, 3}, 1⟩
    (fun s => if s = 2 ∨ s = 3 then some state_t.secondary_need_primary else none)
    (fun _ => none) (fun _ => none) (fun v => v) (fun _ _ => 0)
    ⟨{1, 2, 3}, {1, 2, 3}, none, none, 0⟩ none ⟨1, false, 0, none⟩
    rfl (by decide) (by decide)

/-- C10: the returned voter set is all-or-nothing: it equals the old
`temp_voters` when the commit condition holds (transition in flight and the
primary acked `primary_ready` for the old contract), and equals the old
voters whenever the commit condition fails; no individual voter is added or
removed. -/
theorem voters_all_or_nothing
    (old_c : contract_t) (config : shard_t) (ackst : Nat → Option state_t)
    (ackv ackb : Nat → Option Nat) (proj : Nat → Nat) (bm : Nat → Nat → Nat)
    (nc : contract_t) (call : Option (Nat × Nat))
    (h : calculate_contract old_c config ackst ackv ackb proj bm = some (nc, call)) :
    (∀ tv p, old_c.temp_voters = some tv → old_c.primary = some p →
      ackst p.server = some state_t.primary_ready → nc.voters = tv) ∧
    ((∀ tv p, old_c.temp_voters = some tv → old_c.primary = some p →
      ackst p.server ≠ some state_t.primary_ready) → nc.voters = old_c.voters) := by
  have hv := (calc_fields h).1
  constructor
  · intro tv p htv hp hack
    rw [hv]
    unfold votersAfterCommit
    simp only [htv, hp]
    rw [if_pos hack]
  · intro hno
    rw [hv]
    cases htv : old_c.temp_voters with
    | none => exact votersAfterCommit_of_temp_none htv
    | some tv =>
      cases hp : old_c.primary with
      | none => exact votersAfterCommit_of_primary_none hp
      | some p =>
        unfold votersAfterCommit
        simp only [htv, hp]
        rw [if_neg (hno tv p htv hp)]

/-- Witness for C10 at a commit input: voters become the old `temp_voters`
`{1, 2}`. -/
theorem voters_all_or_nothing_witness :
    (∀ tv p, (some ({1, 2} : Finset Nat)) = some tv →
      (some (⟨1, false, 0, none⟩ : primary_t)) = some p →
      (fun s => if s = 1 then some state_t.primary_ready else none) p.server =
        some state_t.primary_ready →
      ({1, 2} : Finset Nat) = tv) ∧
    ((∀ tv p, (some ({1, 2} : Finset Nat)) = some tv →
      (some (⟨1, false, 0, none⟩ : primary_t)) = some p →
      (fun s => if s = 1 then some state_t.primary_ready else none) p.server ≠
        some state_t.primary_ready) →
      ({1, 2} : Finset Nat) = ({1} : Finset Nat)) := by
  have hmain := voters_all_or_nothing
    ⟨{1, 2}, {1}, some {1, 2}, some ⟨1, false, 0, none⟩, 0⟩ ⟨{1, 2}, 1⟩
    (fun s => if s = 1 then some state_t.primary_ready else none)
    (fun _ => none) (fun _ => none) (fun v => v) (fun _ _ => 0)
    ⟨{1, 2}, {1, 2}, none, some ⟨1, false, 0, none⟩, 0⟩ none (by decide)
  exact hmain

/-- C4: when the old contract has no primary, the returned contract has a
primary only if strictly more than half of the current voters acked
`secondary_need_primary` for the old contract — and each such responder
supplied a version (the election is based on usable versions only). If fewer
than a majority responded, no primary is elected in that call. -/
theorem election_requires_voter_majority
    (old_c : contract_t) (config : shard_t) (ackst : Nat → Option state_t)
    (ackv ackb : Nat → Option Nat) (proj : Nat → Nat) (bm : Nat → Nat → Nat)
    (nc : contract_t) (call : Option (Nat × Nat))
    (hp : old_c.primary = none)
    (h : calculate_contract old_c config ackst ackv ackb proj bm = some (nc, call))
    (hne : nc.primary ≠ none) :
    countAcks ackst state_t.secondary_need_primary old_c.voters >
      old_c.voters.card / 2 ∧
    ∀ s ∈ old_c.voters, ackst s = some state_t.secondary_need_primary →
      (ackv s).isSome := by
  have hVo : votersAfterCommit old_c ackst = old_c.voters :=
    votersAfterCommit_of_primary_none hp
  unfold calculate_contract at h
  simp only [hp] at h
  rw [hVo] at h
  split at h
  · exact Option.noConfusion h
  · rename_i prim br cl hel
    simp only [Option.some.injEq, Prod.mk.injEq] at h
    obtain ⟨hnc, -⟩ := h
    have hprim : nc.primary = prim := by rw [← hnc]
    unfold electStep at hel
    split at hel
    · exact Option.noConfusion hel
    · rename_i states hr
      split at hel
      · rename_i hsel
        simp only [Option.some.injEq, Prod.mk.injEq] at hel
        rw [hprim, ← hel.1] at hne
        exact absurd rfl hne
      · rename_i np hsel
        have hne2 : eligibleCandidates states old_c.voters.card ≠ [] := by
          intro hnil
          rw [hnil] at hsel
          simp [selectLoop] at hsel
        have hlen : old_c.voters.card / 2 < (states.insertionSort pairLeP).length := by
          by_contra hle
          push_neg at hle
          exact hne2 (by unfold eligibleCandidates; exact List.drop_eq_nil_iff.mpr hle)
        rw [List.length_insertionSort, replicaStates_length hr, countP_ascList] at hlen
        refine ⟨hlen, ?_⟩
        intro s hs hst
        exact replicaStates_version_isSome hr s (mem_ascList.mpr hs) hst

/-- Witness for C4: three voters, all acked `secondary_need_primary` with
versions, a primary is elected; the count 3 exceeds 3 / 2. -/
theorem election_requires_voter_majority_witness :
    countAcks (fun _ => some state_t.secondary_need_primary)
        state_t.secondary_need_primary ({10, 20, 30} : Finset Nat) >
      ({10, 20, 30} : Finset Nat).card / 2 ∧
    ∀ s ∈ ({10, 20, 30} : Finset Nat),
      (fun _ => some state_t.secondary_need_primary) s =
        some state_t.secondary_need_primary →
      ((fun s => if s = 10 then some 1 else if s = 20 then some 2
        else if s = 30 then some 3 else none) s).isSome :=
  election_requires_voter_majority
    ⟨{10, 20, 30}, {10, 20, 30}, none, none, 0⟩ ⟨{10, 20, 30}, 20⟩
    (fun _ => some state_t.secondary_need_primary)
    (fun s => if s = 10 then some 1 else if s = 20 then some 2
      else if s = 30 then some 3 else none)
    (fun _ => none) (fun v => v) (fun _ _ => 100)
    ⟨{10, 20, 30}, {10, 20, 30}, none, some ⟨20, false, 0, none⟩, 100⟩
    (some (20, 2)) rfl (by decide) (by decide)

/-- C8: in an election (old contract without a primary), the elected server is
one of the eligible candidates — the suffix of the `(timestamp, server id)`
vector sorted ascending that starts at index `|voters| / 2`; it is
`config.primary_replica` whenever that server is eligible, and otherwise the
greatest eligible pair, i.e. the most up-to-date candidate with the server-id
tie-break. -/
theorem election_prefers_config_primary
    (old_c : contract_t) (config : shard_t) (ackst : Nat → Option state_t)
    (ackv ackb : Nat → Option Nat) (proj : Nat → Nat) (bm : Nat → Nat → Nat)
    (nc : contract_t) (call : Option (Nat × Nat)) (q : primary_t)
    (states : List (Nat × Nat))
    (hp : old_c.primary = none)
    (hs : replicaStates ackst ackv proj (ascList old_c.voters) = some states)
    (h : calculate_contract old_c config ackst ackv ackb proj bm = some (nc, call))
    (hq : nc.primary = some q) :
    ∃ pr ∈ eligibleCandidates states old_c.voters.card,
      pr.2 = q.server ∧
      (config.primary_replica ∈
          (eligibleCandidates states old_c.voters.card).map Prod.snd →
        q.server = config.primary_replica) ∧
      (config.primary_replica ∉
          (eligibleCandidates states old_c.voters.card).map Prod.snd →
        ∀ x ∈ eligibleCandidates states old_c.voters.card, pairLeP x pr) := by
  have hVo : votersAfterCommit old_c ackst = old_c.voters :=
    votersAfterCommit_of_primary_none hp
  unfold calculate_contract at h
  simp only [hp] at h
  rw [hVo] at h
  split at h
  · exact Option.noConfusion h
  · rename_i prim br cl hel
    simp only [Option.some.injEq, Prod.mk.injEq] at h
    obtain ⟨hnc, -⟩ := h
    have hprim : nc.primary = prim := by rw [← hnc]
    unfold electStep at hel
    split at hel
    · rename_i hr
      rw [hr] at hs
      exact Option.noConfusion hs
    · rename_i states' hr
      have hss : states' = states := by
        have hts := hr.symm.trans hs
        exact (Option.some.injEq _ _).mp hts
      rw [hss] at hel
      split at hel
      · rename_i hsel
        simp only [Option.some.injEq, Prod.mk.injEq] at hel
        rw [hprim, ← hel.1] at hq
        exact Option.noConfusion hq
      · rename_i np hsel
        split at hel
        · exact Option.noConfusion hel
        · rename_i v hv
          simp only [Option.some.injEq, Prod.mk.injEq] at hel
          have hqnp : q.server = np := by
            rw [hprim, ← hel.1] at hq
            have hq2 := (Option.some.injEq _ _).mp hq
            rw [← hq2]
          by_cases hm : config.primary_replica ∈
              (eligibleCandidates states old_c.voters.card).map Prod.snd
          · rw [selectLoop_of_mem none hm] at hsel
            have hnp : config.primary_replica = np :=
              (Option.some.injEq _ _).mp hsel
            rcases List.mem_map.mp hm with ⟨pr0, hpr0, hsnd0⟩
            exact ⟨pr0, hpr0, by rw [hsnd0, hqnp, hnp],
              fun _ => by rw [hqnp, hnp], fun hcon => absurd hm hcon⟩
          · rw [selectLoop_of_not_mem none hm] at hsel
            cases hlast : (eligibleCandidates states old_c.voters.card).getLast? with
            | none =>
              simp only [hlast] at hsel
              exact Option.noConfusion hsel
            | some bb =>
              simp only [hlast] at hsel
              have hnp : bb.2 = np := (Option.some.injEq _ _).mp hsel
              have hsorted : List.Sorted pairLeP
                  (eligibleCandidates states old_c.voters.card) := by
                unfold eligibleCandidates
                exact List.Pairwise.sublist (List.drop_sublist _ _)
                  (List.sorted_insertionSort pairLeP states)
              exact ⟨bb, List.mem_of_getLast?_eq_some hlast, by rw [hqnp, ← hnp],
                fun hcon => absurd hcon hm,
                fun _ x hx => sorted_pairLeP_getLast? hsorted hlast x hx⟩

/-- Witness for C8 (the spec's Scenario B): voters `{10, 20, 30}` at projected
timestamps `{1, 2, 3}` and `config.primary_replica = 20`: server 20 is
eligible (index 1 of 3) and is elected even though 30 is more up to date. -/
theorem election_prefers_config_primary_witness :
    ∃ pr ∈ eligibleCandidates [(1, 10), (2, 20), (3, 30)]
        ({10, 20, 30} : Finset Nat).card,
      pr.2 = 20 ∧
      ((20 : Nat) ∈ (eligibleCandidates [(1, 10), (2, 20), (3, 30)]
          ({10, 20, 30} : Finset Nat).card).map Prod.snd →
        (20 : Nat) = 20) ∧
      ((20 : Nat) ∉ (eligibleCandidates [(1, 10), (2, 20), (3, 30)]
          ({10, 20, 30} : Finset Nat).card).map Prod.snd →
        ∀ x ∈ eligibleCandidates [(1, 10), (2, 20), (3, 30)]
          ({10, 20, 30} : Finset Nat).card, pairLeP x pr) :=
  election_prefers_config_primary
    ⟨{10, 20, 30}, {10, 20, 30}, none, none, 0⟩ ⟨{10, 20, 30}, 20⟩
    (fun _ => some state_t.secondary_need_primary)
    (fun s => if s = 10 then some 1 else if s = 20 then some 2
      else if s = 30 then some 3 else none)
    (fun _ => none) (fun v => v) (fun _ _ => 100)
    ⟨{10, 20, 30}, {10, 20, 30}, none, some ⟨20, false, 0, none⟩, 100⟩
    (some (20, 2)) ⟨20, false, 0, none⟩ [(1, 10), (2, 20), (3, 30)]
    rfl (by decide) (by decide) rfl

end TableRaft
